import Mathlib

/-!
# Verification of the meter-data ETL pipeline

A shallow embedding of the core pipeline of the repository
(`src/data_io/reader.py` and `src/features/feature_generator.py`):
the hourly expander, the timestamp-normalization logic of the feature
stage, the rolling features, the daily aggregation, consumption
categorization and the monthly aggregation, together with theorems
settling the specification claims about them.

Conventions of the embedding:
* Wall-clock times and UTC instants are measured in minutes (`Int`);
  a calendar date is its day index, so its local midnight has wall
  clock `1440 * day`.
* A time zone is a pair of offset functions (minutes east of UTC):
  `offsetOfInstant` gives the offset in force at a UTC instant (what
  `astimezone` / `tz_convert` consult), `offsetOfWall` the offset
  `pytz`'s `localize` / pandas' `tz_localize` assign to a naive wall
  time.
* Python floats are modelled as `ℚ`, with the IEEE special values
  that the pipeline manipulates explicitly (`inf`, `NaN` in the
  peak-to-mean ratio) given by the dedicated type `FVal`.
* `logger.warning` calls are modelled by counting them.
-/

namespace MeterEtl

/-- A time zone: offset rules as two functions (minutes east of UTC). -/
structure Tz where
  offsetOfInstant : Int → Int
  offsetOfWall : Int → Int

/-- A tz-aware datetime: a wall-clock reading (minutes) together with the
UTC offset (minutes) its `tzinfo` denotes. -/
structure Aware where
  wall : Int
  off : Int
deriving DecidableEq, Repr

/-- The UTC instant an aware datetime denotes. -/
def Aware.instant (a : Aware) : Int := a.wall - a.off

/-- `tz.localize(naive)` / `tz_localize`: attach the zone's offset for that
wall time, keeping the wall clock unchanged. -/
def tzLocalize (z : Tz) (wall : Int) : Aware :=
  { wall := wall, off := z.offsetOfWall wall }

/-- `astimezone` / `tz_convert`: keep the UTC instant, re-express the wall
clock in the target zone. -/
def tzConvert (z : Tz) (a : Aware) : Aware :=
  { wall := a.instant + z.offsetOfInstant a.instant
    off := z.offsetOfInstant a.instant }

/-- Python `datetime` arithmetic on a `pytz`-aware value: `aware + timedelta`
adds to the wall clock and keeps the `tzinfo` (its fixed offset) unchanged —
no renormalization happens (that would require `tz.normalize`). -/
def awareAddMinutes (a : Aware) (m : Int) : Aware :=
  { wall := a.wall + m, off := a.off }

@[simp] theorem tzConvert_instant (z : Tz) (a : Aware) :
    (tzConvert z a).instant = a.instant := by
  simp [tzConvert, Aware.instant]

@[simp] theorem awareAddMinutes_instant (a : Aware) (m : Int) :
    (awareAddMinutes a m).instant = a.instant + m := by
  simp [awareAddMinutes, Aware.instant]; ring

/-! ## Hourly Expander (`src/data_io/reader.py`, `expand_daily_array_to_hourly`) -/

/-- The `energy_consumption` cell of an input row: either an array-like of
numbers or some non-array value (scalar, string, null, ...). -/
inductive ArrVal where
  | arr (vals : List ℚ)
  | nonArray
deriving DecidableEq, Repr

/-- The `date` cell: a pandas `Timestamp`, a string, or a `date` object; in
each case it resolves to the same calendar day (its day index). -/
inductive RawDate where
  | ts (day : Int)
  | str (day : Int)
  | dateObj (day : Int)
deriving DecidableEq, Repr

/-- The date resolution of the expander: `.date()` on a `Timestamp`,
`pd.to_datetime(...).date()` on a string, pass-through otherwise. -/
def RawDate.resolve : RawDate → Int
  | .ts d => d
  | .str d => d
  | .dateObj d => d

/-- One `MeterDayRecord` row as the expander reads it. -/
structure InputRow where
  client_id : String
  ext_dev_ref : String
  date : RawDate
  energy_consumption : ArrVal
  resolution : Option String
deriving DecidableEq, Repr

/-- One emitted `HourlyRecord`. `timestamp_local` keeps its (wall, offset)
pair, `timestamp_utc` its UTC instant; `date_local` is the day index. -/
structure HourlyRow where
  client_id : String
  ext_dev_ref : String
  resolution : Option String
  date_local : Int
  hour : Nat
  timestamp_local : Aware
  timestamp_utc : Int
  consumption_kwh : ℚ
deriving DecidableEq, Repr

/-- The validity test of the expander: `isinstance(arr, (list, tuple,
np.ndarray)) and len(arr) == 24`. -/
def validArr : ArrVal → Bool
  | .arr vals => vals.length = 24
  | .nonArray => false

/-- Local midnight of a calendar day: wall clock `1440 * day` localized to
the configured zone (`timezone.localize(datetime.combine(day_date, time(0,0)))`). -/
def localMidnight (z : Tz) (day : Int) : Aware :=
  tzLocalize z (1440 * day)

/-- The inner loop of the expander for one valid row: for `h` over the
array, `ts_local = local_midnight + h hours` (pytz arithmetic, offset kept)
and `ts_utc = ts_local.astimezone(UTC)`. -/
def emitHours (z : Tz) (row : InputRow) (day : Int) (vals : List ℚ) :
    List HourlyRow :=
  (List.range vals.length).map fun (h : Nat) =>
    let tsLocal := awareAddMinutes (localMidnight z day) (60 * Int.ofNat h)
    { client_id := row.client_id
      ext_dev_ref := row.ext_dev_ref
      resolution := row.resolution
      date_local := day
      hour := h
      timestamp_local := tsLocal
      timestamp_utc := tsLocal.instant
      consumption_kwh := vals.getD h 0 }

/-- The per-row body of the expander loop: an invalid array contributes no
rows (the row is skipped with a warning), a valid one its 24 hours. -/
def expandRow (z : Tz) (row : InputRow) : List HourlyRow :=
  match row.energy_consumption with
  | .arr vals => if vals.length = 24 then emitHours z row row.date.resolve vals else []
  | .nonArray => []

/-- Insertion of an element into a sorted list (the model's sorting
primitive; structurally recursive so that concrete tables evaluate). -/
def insertSorted {α : Type} (le : α → α → Bool) : α → List α → List α
  | x, [] => [x]
  | x, y :: ys => if le x y then x :: y :: ys else y :: insertSorted le x ys

/-- Insertion sort, modelling `DataFrame.sort_values` by the given key
comparison. -/
def sortBy {α : Type} (le : α → α → Bool) : List α → List α
  | [] => []
  | x :: xs => insertSorted le x (sortBy le xs)

theorem insertSorted_perm {α : Type} (le : α → α → Bool) (x : α)
    (l : List α) : List.Perm (insertSorted le x l) (x :: l) := by
  induction l with
  | nil => rfl
  | cons y ys ih =>
    unfold insertSorted
    by_cases h : le x y
    · simp [h]
    · simp only [h, if_false]
      exact (ih.cons y).trans (List.Perm.swap x y ys)

theorem sortBy_perm {α : Type} (le : α → α → Bool) (l : List α) :
    List.Perm (sortBy le l) l := by
  induction l with
  | nil => rfl
  | cons x xs ih =>
    unfold sortBy
    exact (insertSorted_perm le x (sortBy le xs)).trans (ih.cons x)

theorem mem_sortBy {α : Type} (le : α → α → Bool) (l : List α) (a : α) :
    a ∈ sortBy le l ↔ a ∈ l :=
  (sortBy_perm le l).mem_iff

theorem length_sortBy {α : Type} (le : α → α → Bool) (l : List α) :
    (sortBy le l).length = l.length :=
  (sortBy_perm le l).length_eq

/-- Comparison used by `sort_values(["ext_dev_ref", "timestamp_local"])`:
`timestamp_local` is an ISO string, and for the fixed-width ISO strings the
expander emits (single configured zone, hence offsets of one sign) string
order is wall clock first, then offset. -/
def hrLE (a b : HourlyRow) : Bool :=
  if a.ext_dev_ref ≠ b.ext_dev_ref then decide (a.ext_dev_ref < b.ext_dev_ref)
  else if a.timestamp_local.wall ≠ b.timestamp_local.wall then
    decide (a.timestamp_local.wall < b.timestamp_local.wall)
  else decide (a.timestamp_local.off ≤ b.timestamp_local.off)

/-- Result of the expander: the output table plus the number of
`logger.warning` calls made while producing it. -/
structure ExpandResult where
  rows : List HourlyRow
  warnings : Nat
deriving DecidableEq, Repr

/-- The columns the expander requires in its input dataframe. -/
def requiredCols : List String :=
  ["client_id", "ext_dev_ref", "date", "energy_consumption"]

/-- The tail of the expander, after the row loop has produced the emitted
rows and `invalid` warnings: warn once more if the result is empty,
otherwise sort by `(ext_dev_ref, timestamp_local)`. -/
def finishExpand (emitted : List HourlyRow) (invalid : Nat) : ExpandResult :=
  if emitted.isEmpty then ⟨emitted, invalid + 1⟩
  else ⟨sortBy hrLE emitted, invalid⟩

/-- `expand_daily_array_to_hourly`: check required columns (fatal
`ValueError` if absent), skip invalid rows with a warning, emit 24 hourly
rows per valid row, then finish (empty-result warning / sort). `cols` is
`df.columns`. -/
def expand_daily_array_to_hourly (z : Tz) (cols : List String)
    (rows : List InputRow) : Except String ExpandResult :=
  if requiredCols.all (cols.contains ·) then
    .ok (finishExpand (rows.flatMap (expandRow z))
      (rows.filter (fun r => !validArr r.energy_consumption)).length)
  else .error ("Input dataframe must contain required columns")

/-! ## Claim C1: expansion of one valid row -/

/-- What C1 asserts of the rows emitted for one valid input row: exactly 24
records; the h-th has `hour = h`, `consumption_kwh = float(array[h])`; the
local timestamps form a contiguous hourly sequence (each one hour after the
previous) starting at local midnight of the row's date. -/
def rowExpansionSpec (z : Tz) (row : InputRow) (vals : List ℚ) : Prop :=
  (expandRow z row).length = 24 ∧
  (∀ h : Nat, (hh : h < (expandRow z row).length) →
    ((expandRow z row).get ⟨h, hh⟩).hour = h ∧
    ((expandRow z row).get ⟨h, hh⟩).consumption_kwh = vals.getD h 0) ∧
  (∀ h : Nat, (hh : h + 1 < (expandRow z row).length) →
    (((expandRow z row).get ⟨h + 1, hh⟩).timestamp_local).instant =
      (((expandRow z row).get ⟨h, Nat.lt_of_succ_lt hh⟩).timestamp_local).instant + 60) ∧
  (∀ hh : 0 < (expandRow z row).length,
    ((expandRow z row).get ⟨0, hh⟩).timestamp_local =
      localMidnight z row.date.resolve)

/-- A constant-offset instantiation of the configured zone
(Europe/Vilnius in winter: UTC+02:00). -/
def vilniusWinter : Tz :=
  { offsetOfInstant := fun _ => 120, offsetOfWall := fun _ => 120 }

/-- A sample 24-value consumption array (0, 1, ..., 23). -/
def sampleVals : List ℚ := (List.range 24).map (fun h => (h : ℚ))

/-- A sample valid meter-day row. -/
def sampleRow : InputRow :=
  { client_id := "c1", ext_dev_ref := "dev1", date := .dateObj 19889
    energy_consumption := .arr sampleVals, resolution := some ("day") }

/-- C1: for every input row whose `energy_consumption` is an array-like of
length exactly 24, the expander emits exactly 24 hourly records, the h-th
having `hour = h` and `consumption_kwh = float(array[h])`, with
`timestamp_local` values forming a contiguous hourly sequence starting at
local midnight of that row's date in the configured zone. -/
theorem expander_emits_24_contiguous_hours (z : Tz) (row : InputRow)
    (vals : List ℚ) (hv : row.energy_consumption = .arr vals)
    (hlen : vals.length = 24) : rowExpansionSpec z row vals := by
  have he : expandRow z row = emitHours z row row.date.resolve vals := by
    simp [expandRow, hv, hlen]
  refine ⟨?_, ?_, ?_, ?_⟩
  · simp [he, emitHours, hlen]
  · intro h hh
    simp [he, emitHours]
  · intro h hh
    simp only [he, emitHours, List.get_eq_getElem, List.getElem_map,
      List.getElem_range, awareAddMinutes_instant, Int.ofNat_eq_natCast]
    push_cast
    ring
  · intro hh
    simp only [he, emitHours, List.get_eq_getElem, List.getElem_map,
      List.getElem_range]
    simp [awareAddMinutes]

/-- Witness for C1 at a concrete row and zone. -/
theorem expander_emits_24_contiguous_hours_witness :
    rowExpansionSpec vilniusWinter sampleRow sampleVals :=
  expander_emits_24_contiguous_hours vilniusWinter sampleRow sampleVals rfl
    (by decide)

/-! ## Claim C3: DST handling of the expander -/

/-- A zone with a spring-forward transition on day 0: at 03:00 wall /
01:00 UTC the offset jumps from +02:00 to +03:00 (Europe/Vilnius on a
late-March Sunday, with the transition day taken as day index 0). -/
def dstZone : Tz :=
  { offsetOfInstant := fun t => if t < 60 then 120 else 180
    offsetOfWall := fun w => if w < 180 then 120 else 180 }

/-- A valid meter-day row dated on the transition day of `dstZone`. -/
def dstRow : InputRow :=
  { client_id := "c1", ext_dev_ref := "dev1", date := .dateObj 0
    energy_consumption := .arr sampleVals, resolution := none }

/-- Claim C3 as stated: for every valid row, each emitted local timestamp
carries the offset the zone's rules assign at that emitted hour's instant
(not a fixed offset captured at midnight), and each `timestamp_utc` is the
UTC instant of local midnight plus `h` hours. -/
def claimC3 (z : Tz) : Prop :=
  ∀ (row : InputRow) (vals : List ℚ),
    row.energy_consumption = .arr vals → vals.length = 24 →
    ∀ (h : Nat) (hh : h < (expandRow z row).length),
      ((expandRow z row).get ⟨h, hh⟩).timestamp_local.off =
        z.offsetOfInstant (((expandRow z row).get ⟨h, hh⟩).timestamp_local.instant) ∧
      ((expandRow z row).get ⟨h, hh⟩).timestamp_utc =
        (localMidnight z row.date.resolve).instant + 60 * h

/-- Counterexample to C3: on the transition day of `dstZone`, the row's
5th emitted timestamp (hour 4, after the spring-forward) still carries the
+02:00 offset captured at midnight, while the zone's rules assign +03:00
at that instant — `pytz` datetime arithmetic without `normalize` keeps the
midnight `tzinfo`. -/
theorem expander_dst_offset_counterexample : ¬ claimC3 dstZone := by
  intro hcl
  have h4 := (hcl dstRow sampleVals rfl (by decide) 4 (by decide)).1
  exact absurd h4 (by decide)

/-- What does hold of the expander on any day (DST transition days
included): every emitted local timestamp carries the fixed offset captured
at that date's local midnight, and `timestamp_utc` equals the UTC instant
of local midnight plus `h` hours. -/
def rowFixedOffsetSpec (z : Tz) (row : InputRow) : Prop :=
  ∀ (h : Nat) (hh : h < (expandRow z row).length),
    ((expandRow z row).get ⟨h, hh⟩).timestamp_local.off =
      (localMidnight z row.date.resolve).off ∧
    ((expandRow z row).get ⟨h, hh⟩).timestamp_utc =
      (localMidnight z row.date.resolve).instant + 60 * h

/-- C3 amended: the 24 local timestamps all carry the offset captured at
local midnight (a stale offset after a transition), yet each emitted
`timestamp_utc` still equals the UTC instant of local midnight plus `h`
hours. -/
theorem expander_fixed_midnight_offset (z : Tz) (row : InputRow)
    (vals : List ℚ) (hv : row.energy_consumption = .arr vals)
    (hlen : vals.length = 24) : rowFixedOffsetSpec z row := by
  have he : expandRow z row = emitHours z row row.date.resolve vals := by
    simp [expandRow, hv, hlen]
  intro h hh
  simp only [he, emitHours, List.get_eq_getElem, List.getElem_map,
    List.getElem_range, awareAddMinutes_instant, awareAddMinutes,
    Int.ofNat_eq_natCast]
  refine ⟨trivial, ?_⟩
  simp only [Aware.instant]
  ring

/-- Witness for the amended C3 on the DST transition row. -/
theorem expander_fixed_midnight_offset_witness :
    rowFixedOffsetSpec dstZone dstRow :=
  expander_fixed_midnight_offset dstZone dstRow sampleVals rfl (by decide)

/-! ## Claims C6 and C8: invalid rows and empty input -/

/-- If a row fails the array validation it contributes no hourly rows. -/
theorem expandRow_invalid (z : Tz) (r : InputRow)
    (hbad : validArr r.energy_consumption = false) : expandRow z r = [] := by
  unfold expandRow
  cases hv : r.energy_consumption with
  | nonArray => rfl
  | arr vals =>
    rw [hv] at hbad
    simp only [validArr, decide_eq_false_iff_not] at hbad
    simp [hbad]

/-- What C6 asserts: with an invalid row present, the expander still
succeeds, emits the same hourly rows as without that row, and logs one
more warning. -/
def droppedRowSpec (z : Tz) (cols : List String) (xs ys : List InputRow)
    (bad : InputRow) : Prop :=
  ∃ r r' : ExpandResult,
    expand_daily_array_to_hourly z cols (xs ++ bad :: ys) = .ok r ∧
    expand_daily_array_to_hourly z cols (xs ++ ys) = .ok r' ∧
    r.rows = r'.rows ∧ r.warnings = r'.warnings + 1

/-- C6: a row whose `energy_consumption` is not an array-like of length
exactly 24 is dropped with a warning, contributes zero hourly rows, does
not make the expander raise, and leaves every other row's expansion
unchanged. -/
theorem expander_drops_invalid_row (z : Tz) (cols : List String)
    (xs ys : List InputRow) (bad : InputRow)
    (hcols : requiredCols.all (cols.contains ·) = true)
    (hbad : validArr bad.energy_consumption = false) :
    droppedRowSpec z cols xs ys bad := by
  have hemit : (xs ++ bad :: ys).flatMap (expandRow z) =
      (xs ++ ys).flatMap (expandRow z) := by
    simp [List.flatMap_append, expandRow_invalid z bad hbad]
  have hcnt : ((xs ++ bad :: ys).filter
        (fun r => !validArr r.energy_consumption)).length =
      ((xs ++ ys).filter (fun r => !validArr r.energy_consumption)).length
        + 1 := by
    simp [List.filter_append, hbad]
    omega
  have hrows : ∀ (e : List HourlyRow) (i j : Nat),
      (finishExpand e i).rows = (finishExpand e j).rows := by
    intro e i j
    unfold finishExpand
    by_cases hemp : e.isEmpty <;> simp [hemp]
  have hwarn : ∀ (e : List HourlyRow) (i : Nat),
      (finishExpand e (i + 1)).warnings = (finishExpand e i).warnings + 1 := by
    intro e i
    unfold finishExpand
    by_cases hemp : e.isEmpty <;> simp [hemp]
  unfold droppedRowSpec expand_daily_array_to_hourly
  rw [hcols]
  simp only [if_true]
  refine ⟨_, _, rfl, rfl, ?_, ?_⟩
  · rw [hemit, hcnt]
    exact hrows _ _ _
  · rw [hemit, hcnt]
    exact hwarn _ _

/-- A row with a 23-element array, violating the length-24 invariant. -/
def badRow : InputRow :=
  { client_id := "c2", ext_dev_ref := "dev2", date := .dateObj 19889
    energy_consumption := .arr ((List.range 23).map fun h => (h : ℚ))
    resolution := none }

/-- Witness for C6: a 23-element-array row among valid rows. -/
theorem expander_drops_invalid_row_witness :
    droppedRowSpec vilniusWinter requiredCols [sampleRow] [] badRow :=
  expander_drops_invalid_row vilniusWinter requiredCols [sampleRow] [] badRow
    (by decide) (by decide)

/-- C8: on an input table with the required columns but zero rows, the
expander returns an empty output table together with one warning, and does
not raise. -/
theorem expander_empty_input (z : Tz) (cols : List String)
    (hcols : requiredCols.all (cols.contains ·) = true) :
    expand_daily_array_to_hourly z cols [] = .ok ⟨[], 1⟩ := by
  unfold expand_daily_array_to_hourly
  rw [hcols]
  simp [finishExpand]

/-- Witness for C8 at the concrete column list and zone. -/
theorem expander_empty_input_witness :
    expand_daily_array_to_hourly vilniusWinter requiredCols [] = .ok ⟨[], 1⟩ :=
  expander_empty_input vilniusWinter requiredCols (by decide)

/-! ## Timestamp normalization
(`src/features/feature_generator.py`, `_parse_timestamp_local_to_tz` and
`_series_has_tz_offset`) -/

/-- One cell of a `timestamp_local` column: null, a tz-aware timestamp
object, a naive timestamp object, or a string giving a wall time with an
optional trailing offset token (`+HH:MM` / `+HHMM` / `Z`, the token's
offset in minutes; `Z` is `some 0`). -/
inductive TSVal where
  | na
  | aware (wall off : Int)
  | naive (wall : Int)
  | str (wall : Int) (mark : Option Int)
deriving DecidableEq, Repr

/-- `getattr(x, "tzinfo", None) is not None`: only actual timestamp
objects carry a `tzinfo`. -/
def TSVal.hasTzinfo : TSVal → Bool
  | .aware _ _ => true
  | _ => false

/-- Whether `astype(str)` of the value ends with an offset token: a
tz-aware timestamp renders with its offset suffix, a naive one without,
a string is itself. -/
def TSVal.strOffsetToken : TSVal → Bool
  | .aware _ _ => true
  | .str _ (some _) => true
  | _ => false

def TSVal.isNa : TSVal → Bool
  | .na => true
  | _ => false

/-- `_series_has_tz_offset`: any non-null value whose string form ends
with an offset token. -/
def series_has_tz_offset (vals : List TSVal) : Bool :=
  (vals.filter (fun v => !v.isNa)).any TSVal.strOffsetToken

/-- A `timestamp_local` column: its values, plus whether its dtype is the
tz-aware datetime dtype (`datetime64[ns, tz]`). -/
structure TSSeries where
  tzDtype : Bool
  vals : List TSVal

/-- Reading a value of a tz-aware-dtype column back out unchanged. -/
def TSVal.asAware : TSVal → Option Aware
  | .aware w o => some ⟨w, o⟩
  | _ => none

/-- The `_ensure_tz` closure, applied per value when the column holds
tz-aware timestamp objects: aware values are converted to the local zone;
offset-marked strings are parsed at their offset then converted; naive
values are parsed and localized. -/
def ensure_tz (z : Tz) : TSVal → Option Aware
  | .na => none
  | .aware w o => some (tzConvert z ⟨w, o⟩)
  | .str w (some m) => some (tzConvert z ⟨w, m⟩)
  | .str w none => some (tzLocalize z w)
  | .naive w => some (tzLocalize z w)

/-- `pd.to_datetime(series, utc=True)` on one value, then
`tz_convert(local_tz)`: an offset-marked value is read at its offset; a
value with no offset is interpreted as UTC (its wall clock taken as the
UTC instant). -/
def to_datetime_utc_then_local (z : Tz) : TSVal → Option Aware
  | .na => none
  | .aware w o => some (tzConvert z ⟨w, o⟩)
  | .naive w => some (tzConvert z ⟨w, 0⟩)
  | .str w (some m) => some (tzConvert z ⟨w, m⟩)
  | .str w none => some (tzConvert z ⟨w, 0⟩)

/-- `pd.to_datetime(series)` (naive parse) then `tz_localize(local_tz)`:
the wall clock is kept and the zone attached. (An aware value cannot occur
on this path; it is carried through unchanged.) -/
def to_datetime_localize (z : Tz) : TSVal → Option Aware
  | .na => none
  | .aware w o => some ⟨w, o⟩
  | .naive w => some (tzLocalize z w)
  | .str w _ => some (tzLocalize z w)

/-- `_parse_timestamp_local_to_tz`: a tz-aware-dtype column is returned
as-is; a column containing tz-aware timestamp objects is mapped through
`_ensure_tz` per value; otherwise one branch is chosen for the whole
column by `_series_has_tz_offset` — parse-as-UTC-then-convert if any value
bears an offset token, parse-naive-then-localize if none does. -/
def parse_timestamp_local_to_tz (z : Tz) (s : TSSeries) : List (Option Aware) :=
  if s.tzDtype then s.vals.map TSVal.asAware
  else if s.vals.any TSVal.hasTzinfo then s.vals.map (ensure_tz z)
  else if series_has_tz_offset s.vals then s.vals.map (to_datetime_utc_then_local z)
  else s.vals.map (to_datetime_localize z)

/-! ## Claim C2: the three normalization cases, per value -/

/-- Claim C2 as stated: for every column and every value in it, the value
is handled by its own case — tz-aware values converted to the target zone,
offset-marked values parsed at their offset then converted, offset-free
values localized directly without shifting the clock — even when the
column mixes offset-bearing and naive values. -/
def claimC2 (z : Tz) : Prop :=
  ∀ (s : TSSeries) (i : Nat),
    (∀ w o, s.vals.getD i .na = .aware w o →
      (parse_timestamp_local_to_tz z s).getD i none = some (tzConvert z ⟨w, o⟩)) ∧
    (∀ w m, s.vals.getD i .na = .str w (some m) →
      (parse_timestamp_local_to_tz z s).getD i none = some (tzConvert z ⟨w, m⟩)) ∧
    (∀ w, s.vals.getD i .na = .str w none →
      (parse_timestamp_local_to_tz z s).getD i none = some (tzLocalize z w)) ∧
    (∀ w, s.vals.getD i .na = .naive w →
      (parse_timestamp_local_to_tz z s).getD i none = some (tzLocalize z w))

/-- A string column mixing an offset-bearing value and a naive value. -/
def mixedSeries : TSSeries :=
  { tzDtype := false, vals := [.str 0 (some 120), .str 300 none] }

/-- Counterexample to C2: in a string column that mixes offset-bearing and
naive values, `_series_has_tz_offset` is true, so the whole column is
parsed with `utc=True`; the naive value `05:00` is read as `05:00 UTC` and
shifted to `07:00+02:00` instead of being localized to `05:00+02:00`. -/
theorem parse_mixed_column_counterexample : ¬ claimC2 vilniusWinter := by
  intro hcl
  have h := (hcl mixedSeries 1).2.2.1 300 rfl
  exact absurd h (by decide)

/-- Reading position `i` of a mapped list through defaults: if the source
list holds a non-default value at `i`, the mapped list holds its image. -/
theorem getD_map_of_ne_default {α β : Type} (l : List α) (f : α → β)
    (i : Nat) (dA : α) (dB : β) (v : α) (hv : l.getD i dA = v)
    (hne : v ≠ dA) : (l.map f).getD i dB = f v := by
  rcases Nat.lt_or_ge i l.length with hi | hi
  · have hi2 : i < (l.map f).length := by simpa using hi
    rw [List.getD_eq_getElem _ _ hi2, List.getElem_map]
    rw [List.getD_eq_getElem _ _ hi] at hv
    rw [hv]
  · rw [List.getD_eq_default _ _ hi] at hv
    exact absurd hv.symm hne

/-- What does hold of `_parse_timestamp_local_to_tz`, per branch: a
tz-aware-dtype column is returned unchanged (not converted); a column
containing tz-aware timestamp objects is handled per value by its own
case; otherwise one case is chosen for the whole column — with any offset
token present every value (naive ones included) is parsed as UTC and so
shifted, with none present every value is localized without shifting. -/
def parseNormalizationSpec (z : Tz) (s : TSSeries) : Prop :=
  (s.tzDtype = true →
    parse_timestamp_local_to_tz z s = s.vals.map TSVal.asAware) ∧
  (s.tzDtype = false → s.vals.any TSVal.hasTzinfo = true →
    ∀ i : Nat,
      (∀ w o, s.vals.getD i .na = .aware w o →
        (parse_timestamp_local_to_tz z s).getD i none =
          some (tzConvert z ⟨w, o⟩)) ∧
      (∀ w m, s.vals.getD i .na = .str w (some m) →
        (parse_timestamp_local_to_tz z s).getD i none =
          some (tzConvert z ⟨w, m⟩)) ∧
      (∀ w, s.vals.getD i .na = .str w none →
        (parse_timestamp_local_to_tz z s).getD i none =
          some (tzLocalize z w)) ∧
      (∀ w, s.vals.getD i .na = .naive w →
        (parse_timestamp_local_to_tz z s).getD i none =
          some (tzLocalize z w))) ∧
  (s.tzDtype = false → s.vals.any TSVal.hasTzinfo = false →
    series_has_tz_offset s.vals = true →
    ∀ i : Nat,
      (∀ w m, s.vals.getD i .na = .str w m →
        (parse_timestamp_local_to_tz z s).getD i none =
          some (tzConvert z ⟨w, m.getD 0⟩)) ∧
      (∀ w, s.vals.getD i .na = .naive w →
        (parse_timestamp_local_to_tz z s).getD i none =
          some (tzConvert z ⟨w, 0⟩))) ∧
  (s.tzDtype = false → s.vals.any TSVal.hasTzinfo = false →
    series_has_tz_offset s.vals = false →
    ∀ i : Nat,
      (∀ w m, s.vals.getD i .na = .str w m →
        (parse_timestamp_local_to_tz z s).getD i none =
          some (tzLocalize z w)) ∧
      (∀ w, s.vals.getD i .na = .naive w →
        (parse_timestamp_local_to_tz z s).getD i none =
          some (tzLocalize z w)))

/-- C2 amended: timestamp normalization is per-branch, not per-value — a
tz-aware-dtype column passes through unchanged, a column with tz-aware
timestamp objects gets the three cases per value, and a plain
string/naive column gets one case for the whole column chosen by whether
any value carries an offset token (naive values of a mixed column being
interpreted as UTC and shifted). -/
theorem parse_timestamp_branch_cases (z : Tz) (s : TSSeries) :
    parseNormalizationSpec z s := by
  unfold parseNormalizationSpec parse_timestamp_local_to_tz
  refine ⟨?_, ?_, ?_, ?_⟩
  · intro hdt
    simp [hdt]
  · intro hdt hobj
    simp only [hdt, Bool.false_eq_true, if_false, hobj, if_true]
    intro i
    refine ⟨?_, ?_, ?_, ?_⟩
    · intro w o hv
      exact getD_map_of_ne_default _ _ _ _ _ _ hv (by simp)
    · intro w m hv
      exact getD_map_of_ne_default _ _ _ _ _ _ hv (by simp)
    · intro w hv
      exact getD_map_of_ne_default _ _ _ _ _ _ hv (by simp)
    · intro w hv
      exact getD_map_of_ne_default _ _ _ _ _ _ hv (by simp)
  · intro hdt hobj htok
    simp only [hdt, Bool.false_eq_true, if_false, hobj, htok, if_true]
    intro i
    refine ⟨?_, ?_⟩
    · intro w m hv
      have h := getD_map_of_ne_default _ (to_datetime_utc_then_local z) _
        TSVal.na none _ hv (by simp)
      rw [h]
      cases m <;> rfl
    · intro w hv
      exact getD_map_of_ne_default _ _ _ _ _ _ hv (by simp)
  · intro hdt hobj htok
    simp only [hdt, Bool.false_eq_true, if_false, hobj, htok]
    intro i
    refine ⟨?_, ?_⟩
    · intro w m hv
      exact getD_map_of_ne_default _ _ _ _ _ _ hv (by simp)
    · intro w hv
      exact getD_map_of_ne_default _ _ _ _ _ _ hv (by simp)

/-- Witness for the amended C2 on the mixed column. -/
theorem parse_timestamp_branch_cases_witness :
    parseNormalizationSpec vilniusWinter mixedSeries :=
  parse_timestamp_branch_cases vilniusWinter mixedSeries

/-! ## Rolling features
(`src/features/feature_generator.py`, `add_rolling_features_hourly`) -/

/-- One hourly row as the rolling stage reads it: device, normalized
timestamp (sort key, as its UTC instant) and consumption. -/
structure FeatRow where
  ext_dev_ref : String
  timestamp : Int
  consumption_kwh : ℚ
deriving DecidableEq, Repr

/-- `sort_values(["ext_dev_ref", ts_col])`. -/
def featLE (a b : FeatRow) : Bool :=
  if a.ext_dev_ref ≠ b.ext_dev_ref then decide (a.ext_dev_ref < b.ext_dev_ref)
  else decide (a.timestamp ≤ b.timestamp)

def sortFeat (rows : List FeatRow) : List FeatRow := sortBy featLE rows

/-- The consumption values of the same device strictly before position `i`
in the sorted table: `groupby("ext_dev_ref")["consumption_kwh"]` followed
by `shift(1)` makes exactly these (in order) the non-null candidates. -/
def sameDevPrev (rows : List FeatRow) (i : Nat) : List ℚ :=
  ((rows.take i).filter
      (fun r => r.ext_dev_ref = (rows.getD i ⟨"", 0, 0⟩).ext_dev_ref)).map
    (·.consumption_kwh)

/-- The rolling window at position `i`: the last `window` of the preceding
same-device values (`rolling(window_hours, min_periods=1)` over the
shifted series). -/
def windowVals (rows : List FeatRow) (i window : Nat) : List ℚ :=
  let p := sameDevPrev rows i
  p.drop (p.length - window)

/-- `shift(1).rolling(window, min_periods=1).mean()`: null (NaN) when the
window holds no observation, else the mean. -/
def rolling_mean_col (rows : List FeatRow) (i window : Nat) : Option ℚ :=
  let w := windowVals rows i window
  if w.isEmpty then none else some (w.sum / w.length)

/-- Sample variance (ddof = 1) of a list of rationals. -/
def sampleVar (w : List ℚ) : ℚ :=
  (w.map (fun x => (x - w.sum / w.length) ^ 2)).sum / ((w.length : ℚ) - 1)

/-- `shift(1).rolling(window, min_periods=1).std().fillna(0)`: the sample
standard deviation is NaN for fewer than two observations, and `fillna`
maps that NaN to 0; `sqrtFn` is the square-root primitive (its values
never matter to the claims below, so it is passed abstractly). -/
def rolling_std_col (sqrtFn : ℚ → ℚ) (rows : List FeatRow)
    (i window : Nat) : ℚ :=
  let w := windowVals rows i window
  if w.length ≤ 1 then 0 else sqrtFn (sampleVar w)

/-- An hourly row with the two rolling columns attached. -/
structure RollRow where
  base : FeatRow
  rolling_mean_24h : Option ℚ
  rolling_std_24h : ℚ
deriving DecidableEq, Repr

/-- `add_rolling_features_hourly`: sort by `(ext_dev_ref, ts)`, then per
device compute mean/std over the window strictly preceding each row. -/
def add_rolling_features_hourly (sqrtFn : ℚ → ℚ) (window : Nat)
    (rows : List FeatRow) : List RollRow :=
  let sorted := sortFeat rows
  (List.range sorted.length).map fun i =>
    { base := sorted.getD i ⟨"", 0, 0⟩
      rolling_mean_24h := rolling_mean_col sorted i window
      rolling_std_24h := rolling_std_col sqrtFn sorted i window }

/-! ## Claim C10: a device's first row -/

/-- What C10 asserts of a device's first row (no preceding same-device
samples): the row is emitted with `rolling_std_24h = 0` while
`rolling_mean_24h` is null — the two rolling columns disagree on
definedness for that same row. -/
def firstRowRollingSpec (sqrtFn : ℚ → ℚ) (window : Nat)
    (rows : List FeatRow) (i : Nat) : Prop :=
  ∃ rr : RollRow,
    (add_rolling_features_hourly sqrtFn window rows).get? i = some rr ∧
    rr.rolling_std_24h = 0 ∧ rr.rolling_mean_24h = none

/-- C10: for a device's first hourly row in sorted order (zero preceding
same-device samples), the rolling stage sets `rolling_std_24h` to 0 while
`rolling_mean_24h` is null — a zero std does not witness a preceding
sample. -/
theorem rolling_first_row_zero_std_null_mean (sqrtFn : ℚ → ℚ)
    (window : Nat) (rows : List FeatRow) (i : Nat)
    (hi : i < (sortFeat rows).length)
    (hfirst : sameDevPrev (sortFeat rows) i = []) :
    firstRowRollingSpec sqrtFn window rows i := by
  have hw : windowVals (sortFeat rows) i window = [] := by
    simp [windowVals, hfirst]
  refine ⟨{ base := (sortFeat rows).getD i ⟨"", 0, 0⟩
            rolling_mean_24h := rolling_mean_col (sortFeat rows) i window
            rolling_std_24h := rolling_std_col sqrtFn (sortFeat rows) i window },
    ?_, ?_, ?_⟩
  · unfold add_rolling_features_hourly
    rw [List.get?_eq_get (by simpa using hi)]
    simp
  · simp [rolling_std_col, hw]
  · simp [rolling_mean_col, hw]

/-- Witness for C10 on a one-row table. -/
theorem rolling_first_row_zero_std_null_mean_witness :
    firstRowRollingSpec (fun q => q) 24 [⟨"dev1", 0, 5⟩] 0 :=
  rolling_first_row_zero_std_null_mean (fun q => q) 24 [⟨"dev1", 0, 5⟩] 0
    (by decide) (by decide)

/-! ## Daily aggregation
(`src/features/feature_generator.py`, `aggregate_daily_from_hourly`) -/

/-- A calendar date as the `date_local` ISO string renders it; ISO strings
are zero-padded, so string order is numeric lexicographic order. -/
structure Ymd where
  y : Nat
  m : Nat
  d : Nat
deriving DecidableEq, Repr

def Ymd.leB (a b : Ymd) : Bool :=
  if a.y ≠ b.y then decide (a.y < b.y)
  else if a.m ≠ b.m then decide (a.m < b.m)
  else decide (a.d ≤ b.d)

/-- One hourly row as the daily aggregation reads it. -/
structure HFRow where
  client_id : String
  ext_dev_ref : String
  date_local : Ymd
  hour : Nat
  consumption_kwh : ℚ
deriving DecidableEq, Repr

def dfltHF : HFRow := ⟨"", "", ⟨0, 0, 0⟩, 0, 0⟩

/-- The grouping key `(client_id, ext_dev_ref, date_local)`. -/
def dailyKeyOf (r : HFRow) : String × String × Ymd :=
  (r.client_id, r.ext_dev_ref, r.date_local)

def dailyKeyLE (a b : String × String × Ymd) : Bool :=
  if a.1 ≠ b.1 then decide (a.1 < b.1)
  else if a.2.1 ≠ b.2.1 then decide (a.2.1 < b.2.1)
  else Ymd.leB a.2.2 b.2.2

/-- The distinct group keys, ascending (pandas `groupby` sorts keys). -/
def dailyKeys (rows : List HFRow) : List (String × String × Ymd) :=
  sortBy dailyKeyLE (rows.map dailyKeyOf).dedup

/-- The rows of one group, in their original order. -/
def groupOf (rows : List HFRow) (k : String × String × Ymd) : List HFRow :=
  rows.filter (fun r => decide (dailyKeyOf r = k))

/-- Maximum of a list of values (pandas `max` over a nonempty group). -/
def listMax : List ℚ → ℚ
  | [] => 0
  | [x] => x
  | x :: y :: ys => max x (listMax (y :: ys))

/-- `idxmax`: the position of the first occurrence of the maximum. -/
def idxmaxQ (l : List ℚ) : Nat := l.findIdx (fun x => decide (x = listMax l))

/-- A float value as the ratio pipeline sees it: finite, ±infinity or NaN. -/
inductive FVal where
  | fin (q : ℚ)
  | pinf
  | ninf
  | nan
deriving DecidableEq, Repr

/-- IEEE division as numpy performs it on `peak_kwh / mean_kwh`. -/
def fdivF (p m : ℚ) : FVal :=
  if m = 0 then (if 0 < p then .pinf else if p < 0 then .ninf else .nan)
  else .fin (p / m)

/-- `.replace(np.inf, 0)`: only positive infinity is replaced. -/
def FVal.replaceInfZero : FVal → FVal
  | .pinf => .fin 0
  | v => v

/-- `.fillna(0)`: NaN becomes 0. -/
def FVal.fillnaZero : FVal → FVal
  | .nan => .fin 0
  | v => v

/-- One row of the daily table. -/
structure DailyRow where
  client_id : String
  ext_dev_ref : String
  date_local : Ymd
  total_kwh : ℚ
  mean_kwh : ℚ
  max_kwh : ℚ
  std_kwh : Option ℚ
  hourly_count : Nat
  peak_hour : Nat
  peak_kwh : ℚ
  peak_to_mean_ratio : FVal
  night_kwh : ℚ
  day_kwh : ℚ
  cumulative_total_kwh : ℚ
  weekend_vs_weekday : ℚ
deriving DecidableEq, Repr

def dfltDaily : DailyRow :=
  { client_id := "", ext_dev_ref := "", date_local := ⟨0, 0, 0⟩
    total_kwh := 0, mean_kwh := 0, max_kwh := 0, std_kwh := none
    hourly_count := 0, peak_hour := 0, peak_kwh := 0
    peak_to_mean_ratio := .fin 0, night_kwh := 0, day_kwh := 0
    cumulative_total_kwh := 0, weekend_vs_weekday := 0 }

/-- `df.loc[idx]` for the `idxmax` index of a group: the row holding the
first occurrence of the group's maximum consumption. -/
def peakOf (g : List HFRow) : HFRow :=
  g.getD (idxmaxQ (g.map (·.consumption_kwh))) dfltHF

/-- The mean aggregate of a column. -/
def meanOf (l : List ℚ) : ℚ := l.sum / (l.length : ℚ)

/-- `(peak_kwh / mean_kwh).replace(np.inf, 0).fillna(0)`. -/
def ratioOf (p m : ℚ) : FVal := ((fdivF p m).replaceInfZero).fillnaZero

/-- The per-group aggregation: sum/mean/max/std/count of consumption, the
peak row by `idxmax` (first occurrence of the maximum, read off the
original row order), the peak-to-mean ratio with `inf` replaced and NaN
filled by 0, and the night (hours 0–6) and day (hours 18–23) sums.
`cumulative_total_kwh` and `weekend_vs_weekday` are whole-table columns
filled by the enclosing pass and are 0 here. -/
def mkDailyBase (sqrtFn : ℚ → ℚ) (rows : List HFRow)
    (k : String × String × Ymd) : DailyRow :=
  let g := groupOf rows k
  let cons := g.map (·.consumption_kwh)
  { client_id := k.1
    ext_dev_ref := k.2.1
    date_local := k.2.2
    total_kwh := cons.sum
    mean_kwh := meanOf cons
    max_kwh := listMax cons
    std_kwh := if cons.length ≤ 1 then none else some (sqrtFn (sampleVar cons))
    hourly_count := cons.length
    peak_hour := (peakOf g).hour
    peak_kwh := (peakOf g).consumption_kwh
    peak_to_mean_ratio := ratioOf (peakOf g).consumption_kwh (meanOf cons)
    night_kwh :=
      ((g.filter (fun r => decide (r.hour < 7))).map (·.consumption_kwh)).sum
    day_kwh :=
      ((g.filter (fun r => decide (18 ≤ r.hour) && decide (r.hour < 24))).map
        (·.consumption_kwh)).sum
    cumulative_total_kwh := 0
    weekend_vs_weekday := 0 }

def sameDevice (a b : DailyRow) : Bool :=
  decide (a.client_id = b.client_id) && decide (a.ext_dev_ref = b.ext_dev_ref)

/-- `aggregate_daily_from_hourly`: group, aggregate, then (over the
key-sorted result, which the final `sort_values` leaves in place) fill the
per-device running total and the ratio of each day's total to the device's
mean total offset by `1e-6`. -/
def aggregate_daily_from_hourly (sqrtFn : ℚ → ℚ)
    (rows : List HFRow) : List DailyRow :=
  let base := (dailyKeys rows).map (mkDailyBase sqrtFn rows)
  (List.range base.length).map fun i =>
    let r := base.getD i dfltDaily
    let devTot := (base.filter (sameDevice r)).map (·.total_kwh)
    { r with
      cumulative_total_kwh :=
        (((base.take (i + 1)).filter (sameDevice r)).map (·.total_kwh)).sum
      weekend_vs_weekday :=
        r.total_kwh / (devTot.sum / (devTot.length : ℚ) + 1 / 1000000) }

/-! ## Claim C4: the peak-to-mean ratio -/

theorem listMax_cons (x : ℚ) (l : List ℚ) (h : l ≠ []) :
    listMax (x :: l) = max x (listMax l) := by
  cases l with
  | nil => exact absurd rfl h
  | cons y ys => rfl

theorem le_listMax (l : List ℚ) (x : ℚ) (hx : x ∈ l) : x ≤ listMax l := by
  induction l with
  | nil => cases hx
  | cons y ys ih =>
    cases ys with
    | nil =>
      rcases List.mem_singleton.mp hx with rfl
      exact le_refl _
    | cons z zs =>
      rw [listMax_cons y (z :: zs) (by simp)]
      rcases List.mem_cons.mp hx with rfl | hmem
      · exact le_max_left _ _
      · exact le_trans (ih hmem) (le_max_right _ _)

theorem listMax_mem (l : List ℚ) (h : l ≠ []) : listMax l ∈ l := by
  induction l with
  | nil => exact absurd rfl h
  | cons y ys ih =>
    cases ys with
    | nil => simp [listMax]
    | cons z zs =>
      rw [listMax_cons y (z :: zs) (by simp)]
      rcases max_cases y (listMax (z :: zs)) with ⟨heq, _⟩ | ⟨heq, _⟩
      · rw [heq]
        exact List.mem_cons_self _ _
      · rw [heq]
        exact List.mem_cons_of_mem _ (ih (by simp))

theorem sum_le_length_mul_listMax (l : List ℚ) :
    l.sum ≤ (l.length : ℚ) * listMax l := by
  induction l with
  | nil => simp
  | cons y ys ih =>
    cases ys with
    | nil => simp [listMax]
    | cons z zs =>
      rw [listMax_cons y (z :: zs) (by simp)]
      have h1 : y ≤ max y (listMax (z :: zs)) := le_max_left _ _
      have h3 : ((z :: zs).length : ℚ) * listMax (z :: zs) ≤
          ((z :: zs).length : ℚ) * max y (listMax (z :: zs)) :=
        mul_le_mul_of_nonneg_left (le_max_right _ _) (by positivity)
      have h2 : (z :: zs).sum ≤
          ((z :: zs).length : ℚ) * max y (listMax (z :: zs)) :=
        le_trans ih h3
      simp only [List.sum_cons, List.length_cons] at h2 ⊢
      push_cast at h2 ⊢
      nlinarith [h1, h2]

/-- The ratio is always a finite value, nonnegative when peak and mean
are, provided a zero mean comes with a nonnegative peak. -/
theorem ratioOf_eq_fin (p m : ℚ) (hpm : m = 0 → 0 ≤ p) :
    ∃ q : ℚ, ratioOf p m = .fin q ∧ (0 ≤ p → 0 ≤ m → 0 ≤ q) := by
  unfold ratioOf fdivF
  by_cases hm : m = 0
  · rcases lt_or_eq_of_le (hpm hm) with hlt | heq
    · refine ⟨0, ?_, fun _ _ => le_refl 0⟩
      simp [hm, hlt, FVal.replaceInfZero, FVal.fillnaZero]
    · refine ⟨0, ?_, fun _ _ => le_refl 0⟩
      simp [hm, ← heq, FVal.replaceInfZero, FVal.fillnaZero]
  · refine ⟨p / m, ?_, fun hp hm0 => div_nonneg hp hm0⟩
    simp [hm, FVal.replaceInfZero, FVal.fillnaZero]

/-- The `idxmax` row of a nonempty group holds the group's maximum. -/
theorem peakOf_consumption (g : List HFRow) (hne : g ≠ []) :
    (peakOf g).consumption_kwh = listMax (g.map (·.consumption_kwh)) := by
  have hcne : (g.map (·.consumption_kwh)) ≠ [] := by
    simpa [List.map_eq_nil_iff] using hne
  have hidx : idxmaxQ (g.map (·.consumption_kwh)) <
      (g.map (·.consumption_kwh)).length :=
    List.findIdx_lt_length_of_exists
      ⟨listMax (g.map (·.consumption_kwh)),
        listMax_mem _ hcne, by simp⟩
  have hidxg : idxmaxQ (g.map (·.consumption_kwh)) < g.length := by
    simpa using hidx
  have hidx2 : (g.map (·.consumption_kwh)).findIdx
      (fun x => decide (x = listMax (g.map (·.consumption_kwh)))) <
      (g.map (·.consumption_kwh)).length := hidx
  have hfound := List.findIdx_getElem (w := hidx2)
  rw [List.getElem_map] at hfound
  unfold peakOf
  rw [List.getD_eq_getElem _ _ hidxg]
  simpa [idxmaxQ] using hfound

/-- The ratio of a nonempty group is finite, and nonnegative if the
group's consumption values all are. -/
theorem group_ratio_spec (g : List HFRow) (hne : g ≠ []) :
    ∃ q : ℚ, ratioOf (peakOf g).consumption_kwh
        (meanOf (g.map (·.consumption_kwh))) = .fin q ∧
      ((∀ r ∈ g, 0 ≤ r.consumption_kwh) → 0 ≤ q) := by
  have hcne : (g.map (·.consumption_kwh)) ≠ [] := by
    simpa [List.map_eq_nil_iff] using hne
  have hlen0 : (0 : ℚ) < ((g.map (·.consumption_kwh)).length : ℚ) := by
    have := List.length_pos.mpr hcne
    exact_mod_cast this
  have hmean_le : meanOf (g.map (·.consumption_kwh)) ≤
      listMax (g.map (·.consumption_kwh)) := by
    unfold meanOf
    rw [div_le_iff₀ hlen0, mul_comm]
    exact sum_le_length_mul_listMax _
  rw [peakOf_consumption g hne]
  obtain ⟨q, hq, himp⟩ := ratioOf_eq_fin (listMax (g.map (·.consumption_kwh)))
    (meanOf (g.map (·.consumption_kwh)))
    (fun hm0 => le_trans (le_of_eq hm0.symm) hmean_le)
  refine ⟨q, hq, fun h0 => ?_⟩
  have hmax0 : 0 ≤ listMax (g.map (·.consumption_kwh)) := by
    obtain ⟨r, hr, hrv⟩ := List.mem_map.mp (listMax_mem _ hcne)
    rw [← hrv]
    exact h0 r hr
  have hmean0 : 0 ≤ meanOf (g.map (·.consumption_kwh)) := by
    unfold meanOf
    refine div_nonneg (List.sum_nonneg ?_) (le_of_lt hlen0)
    intro x hx
    obtain ⟨r, hr, hrv⟩ := List.mem_map.mp hx
    rw [← hrv]
    exact h0 r hr
  exact himp hmax0 hmean0

/-- C4 amended: every daily row's `peak_to_mean_ratio` is a finite value
(no infinity and no NaN survive the replace/fillna step), and it is
nonnegative whenever all consumption inputs are nonnegative — but not for
arbitrary (negative) inputs. -/
theorem aggregate_ratio_finite (sqrtFn : ℚ → ℚ) (rows : List HFRow)
    (dr : DailyRow) (hdr : dr ∈ aggregate_daily_from_hourly sqrtFn rows) :
    ∃ q : ℚ, dr.peak_to_mean_ratio = .fin q ∧
      ((∀ r ∈ rows, 0 ≤ r.consumption_kwh) → 0 ≤ q) := by
  simp only [aggregate_daily_from_hourly] at hdr
  obtain ⟨i, hi, hpost⟩ := List.mem_map.mp hdr
  rw [List.mem_range] at hi
  have hleni : i < (dailyKeys rows).length := by simpa using hi
  have hratio : dr.peak_to_mean_ratio =
      (((dailyKeys rows).map (mkDailyBase sqrtFn rows)).getD
        i dfltDaily).peak_to_mean_ratio := by
    rw [← hpost]
  have hbase : ((dailyKeys rows).map (mkDailyBase sqrtFn rows)).getD
      i dfltDaily =
      mkDailyBase sqrtFn rows ((dailyKeys rows).getD i ("", "", ⟨0, 0, 0⟩)) := by
    rw [List.getD_eq_getElem _ _ (by simpa using hi),
      List.getD_eq_getElem _ _ hleni, List.getElem_map]
  have hkmem : (dailyKeys rows).getD i ("", "", ⟨0, 0, 0⟩) ∈ dailyKeys rows := by
    rw [List.getD_eq_getElem _ _ hleni]
    exact List.getElem_mem _
  obtain ⟨r0, hr0, hkey⟩ := List.mem_map.mp
    (List.mem_dedup.mp ((mem_sortBy _ _ _).mp hkmem))
  have hne : groupOf rows ((dailyKeys rows).getD i ("", "", ⟨0, 0, 0⟩)) ≠ [] := by
    intro hempty
    have hmem : r0 ∈ groupOf rows ((dailyKeys rows).getD i ("", "", ⟨0, 0, 0⟩)) :=
      List.mem_filter.mpr ⟨hr0, by simp [hkey]⟩
    rw [hempty] at hmem
    cases hmem
  obtain ⟨q, hq, himp⟩ := group_ratio_spec
    (groupOf rows ((dailyKeys rows).getD i ("", "", ⟨0, 0, 0⟩))) hne
  refine ⟨q, ?_, fun h0 => himp (fun r hrg => h0 r (List.mem_filter.mp hrg).1)⟩
  rw [hratio, hbase]
  exact hq

/-- Claim C4 as stated: every daily row's ratio is ≥ 0 and finite for all
float consumption inputs, including negative ones. -/
def claimC4 : Prop :=
  ∀ (sqrtFn : ℚ → ℚ) (rows : List HFRow) (dr : DailyRow),
    dr ∈ aggregate_daily_from_hourly sqrtFn rows →
    ∃ q : ℚ, dr.peak_to_mean_ratio = .fin q ∧ 0 ≤ q

/-- A meter-day with a negative consumption value: peak 1, mean −1/2. -/
def negRows : List HFRow :=
  [⟨"c1", "d1", ⟨2024, 1, 1⟩, 0, 1⟩, ⟨"c1", "d1", ⟨2024, 1, 1⟩, 1, -2⟩]

/-- Counterexample to C4: with consumption values 1 and −2 the mean is
−1/2 and the peak 1, so the ratio is −2 < 0 — `replace(inf,0).fillna(0)`
leaves a finite negative quotient untouched. -/
theorem aggregate_negative_ratio_counterexample : ¬ claimC4 := by
  intro hcl
  obtain ⟨q, hq, h0⟩ := hcl (fun _ => 0) negRows
    ((aggregate_daily_from_hourly (fun _ => 0) negRows).getD 0 dfltDaily)
    (by norm_num [aggregate_daily_from_hourly, dailyKeys, negRows,
      dailyKeyOf, sortBy, insertSorted, mkDailyBase, groupOf, idxmaxQ,
      listMax, List.findIdx_cons, fdivF, FVal.replaceInfZero,
      FVal.fillnaZero, sameDevice, dfltDaily, peakOf, meanOf, ratioOf,
      dfltHF, sampleVar])
  have hv : ((aggregate_daily_from_hourly (fun _ => 0) negRows).getD
      0 dfltDaily).peak_to_mean_ratio = FVal.fin (-2) := by
    norm_num [aggregate_daily_from_hourly, dailyKeys, negRows,
      dailyKeyOf, sortBy, insertSorted, mkDailyBase, groupOf, idxmaxQ,
      listMax, List.findIdx_cons, fdivF, FVal.replaceInfZero,
      FVal.fillnaZero, sameDevice, dfltDaily, peakOf, meanOf, ratioOf,
      dfltHF]
  rw [hv] at hq
  injection hq with h
  rw [← h] at h0
  norm_num at h0

/-- A meter-day with nonnegative consumption values. -/
def posRows : List HFRow :=
  [⟨"c1", "d1", ⟨2024, 1, 1⟩, 0, 1⟩, ⟨"c1", "d1", ⟨2024, 1, 1⟩, 1, 3⟩]

/-- Witness for the amended C4 on a concrete nonnegative table. -/
theorem aggregate_ratio_finite_witness :
    ∃ q : ℚ, ((aggregate_daily_from_hourly (fun _ => 0) posRows).getD
        0 dfltDaily).peak_to_mean_ratio = .fin q ∧
      ((∀ r ∈ posRows, 0 ≤ r.consumption_kwh) → 0 ≤ q) :=
  aggregate_ratio_finite (fun _ => 0) posRows _
    (by norm_num [aggregate_daily_from_hourly, dailyKeys, posRows,
      dailyKeyOf, sortBy, insertSorted, mkDailyBase, groupOf, idxmaxQ,
      listMax, List.findIdx_cons, fdivF, FVal.replaceInfZero,
      FVal.fillnaZero, sameDevice, dfltDaily, peakOf, meanOf, ratioOf,
      dfltHF, sampleVar])

/-! ## Consumption categorization
(`src/features/feature_generator.py`, `categorize_daily_consumption`) -/

inductive ConsumptionCategory where
  | very_low
  | low
  | medium
  | high
deriving DecidableEq, Repr

/-- The default bin edges `[-1.0, 5.0, 15.0, 50.0, 999999.0]`. -/
def defaultBins : List ℚ := [-1, 5, 15, 50, 999999]

/-- The default labels. -/
def defaultLabels : List ConsumptionCategory :=
  [.very_low, .low, .medium, .high]

/-- `pd.cut` on one value with right-inclusive bins: the label of the
first interval `(b_i, b_{i+1}]` containing the value, NaN (`none`) if the
value falls outside every bin. -/
def cutVal (bins : List ℚ) (labels : List ConsumptionCategory) (x : ℚ) :
    Option ConsumptionCategory :=
  match bins, labels with
  | b0 :: b1 :: bs, l :: ls =>
    if b0 < x ∧ x ≤ b1 then some l else cutVal (b1 :: bs) ls x
  | _, _ => none

/-- `categorize_daily_consumption` with the default bins and labels: each
daily row is paired with its `consumption_category`. -/
def categorize_daily_consumption (df : List DailyRow) :
    List (DailyRow × Option ConsumptionCategory) :=
  df.map fun r => (r, cutVal defaultBins defaultLabels r.total_kwh)

/-- `pd.cut` over the default bins, written out. -/
theorem cutVal_default (x : ℚ) :
    cutVal defaultBins defaultLabels x =
      if -1 < x ∧ x ≤ 5 then some .very_low
      else if 5 < x ∧ x ≤ 15 then some .low
      else if 15 < x ∧ x ≤ 50 then some .medium
      else if 50 < x ∧ x ≤ 999999 then some .high
      else none := by
  simp only [cutVal, defaultBins, defaultLabels]

/-! ## Claim C7: the category bins -/

/-- Claim C7 as stated: `consumption_category` bins `total_kwh` by the
right-inclusive boundaries `(-1, 5, 15, 50, +inf]`; in particular every
row with `total_kwh > 50`, however large, is `high`. -/
def claimC7 : Prop :=
  ∀ (df : List DailyRow) (p : DailyRow × Option ConsumptionCategory),
    p ∈ categorize_daily_consumption df →
    ((-1 < p.1.total_kwh ∧ p.1.total_kwh ≤ 5) → p.2 = some .very_low) ∧
    ((5 < p.1.total_kwh ∧ p.1.total_kwh ≤ 15) → p.2 = some .low) ∧
    ((15 < p.1.total_kwh ∧ p.1.total_kwh ≤ 50) → p.2 = some .medium) ∧
    (50 < p.1.total_kwh → p.2 = some .high)

/-- A daily row whose total exceeds the last bin edge `999999`. -/
def hugeDaily : DailyRow := { dfltDaily with total_kwh := 1000000 }

/-- Counterexample to C7: the code's top bin edge is `999999`, not `+inf`;
a row with `total_kwh = 1000000 > 50` falls outside every bin and gets no
category (NaN) instead of `high`. -/
theorem categorize_upper_bound_counterexample : ¬ claimC7 := by
  intro hcl
  have h := (hcl [hugeDaily]
    (hugeDaily, cutVal defaultBins defaultLabels hugeDaily.total_kwh)
    (by simp [categorize_daily_consumption])).2.2.2
    (by norm_num [hugeDaily, dfltDaily])
  rw [cutVal_default] at h
  norm_num [hugeDaily, dfltDaily] at h
  exact Option.noConfusion h

/-- C7 amended: the bins are right-inclusive with edges
`(-1, 5, 15, 50, 999999]`; rows with `50 < total ≤ 999999` are `high`, and
rows at or below `-1` or above `999999` get no category. -/
def categorySpec (df : List DailyRow) : Prop :=
  ∀ p ∈ categorize_daily_consumption df,
    ((-1 < p.1.total_kwh ∧ p.1.total_kwh ≤ 5) → p.2 = some .very_low) ∧
    ((5 < p.1.total_kwh ∧ p.1.total_kwh ≤ 15) → p.2 = some .low) ∧
    ((15 < p.1.total_kwh ∧ p.1.total_kwh ≤ 50) → p.2 = some .medium) ∧
    ((50 < p.1.total_kwh ∧ p.1.total_kwh ≤ 999999) → p.2 = some .high) ∧
    ((p.1.total_kwh ≤ -1 ∨ 999999 < p.1.total_kwh) → p.2 = none)

/-- C7 amended, proved: the four right-inclusive bands up to the finite
upper edge `999999`, with values outside `(-1, 999999]` uncategorized. -/
theorem categorize_bins_bounded (df : List DailyRow) : categorySpec df := by
  intro p hp
  obtain ⟨r, hr, hpr⟩ := List.mem_map.mp hp
  subst hpr
  rw [cutVal_default]
  refine ⟨?_, ?_, ?_, ?_, ?_⟩ <;> intro hc
  · rw [if_pos hc]
  · rw [if_neg (by rintro ⟨h1, h2⟩; linarith [hc.1]), if_pos hc]
  · rw [if_neg (by rintro ⟨h1, h2⟩; linarith [hc.1]),
      if_neg (by rintro ⟨h1, h2⟩; linarith [hc.1]), if_pos hc]
  · rw [if_neg (by rintro ⟨h1, h2⟩; linarith [hc.1]),
      if_neg (by rintro ⟨h1, h2⟩; linarith [hc.1]),
      if_neg (by rintro ⟨h1, h2⟩; linarith [hc.1]), if_pos hc]
  · rcases hc with hc | hc
    · rw [if_neg (by rintro ⟨h1, h2⟩; linarith),
        if_neg (by rintro ⟨h1, h2⟩; linarith),
        if_neg (by rintro ⟨h1, h2⟩; linarith),
        if_neg (by rintro ⟨h1, h2⟩; linarith)]
    · rw [if_neg (by rintro ⟨h1, h2⟩; linarith),
        if_neg (by rintro ⟨h1, h2⟩; linarith),
        if_neg (by rintro ⟨h1, h2⟩; linarith),
        if_neg (by rintro ⟨h1, h2⟩; linarith)]

/-- Witness for the amended C7 on a concrete table. -/
theorem categorize_bins_bounded_witness :
    categorySpec [{ dfltDaily with total_kwh := 60 }] :=
  categorize_bins_bounded [{ dfltDaily with total_kwh := 60 }]

/-! ## Monthly aggregation
(`src/features/feature_generator.py`, `derive_monthly_from_daily`) -/

/-- One row of the monthly table. -/
structure MonthlyRow where
  client_id : String
  ext_dev_ref : String
  year : Nat
  month : Nat
  monthly_total_kwh : ℚ
  monthly_mean_kwh : ℚ
  monthly_max_kwh : ℚ
  days_with_data : Nat
deriving DecidableEq, Repr

/-- Round to the nearest integer, ties to even (IEEE float rounding as
`Series.round` performs it). -/
def roundHalfEven (q : ℚ) : ℤ :=
  let f := ⌊q⌋
  let r := q - (f : ℚ)
  if r < 1 / 2 then f
  else if 1 / 2 < r then f + 1
  else if f % 2 = 0 then f else f + 1

/-- `.round(6)`: round to 6 decimal places. -/
def round6 (q : ℚ) : ℚ := ((roundHalfEven (q * 1000000) : ℤ) : ℚ) / 1000000

/-- The grouping key `(client_id, ext_dev_ref, year, month)`, with year
and month read off `pd.to_datetime(date_local)`. -/
def monthKeyOf (r : DailyRow) : String × String × Nat × Nat :=
  (r.client_id, r.ext_dev_ref, r.date_local.y, r.date_local.m)

def monthKeyLE (a b : String × String × Nat × Nat) : Bool :=
  if a.1 ≠ b.1 then decide (a.1 < b.1)
  else if a.2.1 ≠ b.2.1 then decide (a.2.1 < b.2.1)
  else if a.2.2.1 ≠ b.2.2.1 then decide (a.2.2.1 < b.2.2.1)
  else decide (a.2.2.2 ≤ b.2.2.2)

/-- The daily rows of one monthly group, in their original order. -/
def monthGroupOf (df : List DailyRow) (k : String × String × Nat × Nat) :
    List DailyRow :=
  df.filter (fun r => decide (monthKeyOf r = k))

/-- The aggregation body for one monthly group: sum/mean/max of
`total_kwh`, each rounded to 6 decimals, and the count of contributing
daily rows. -/
def mkMonthly (df : List DailyRow) (k : String × String × Nat × Nat) :
    MonthlyRow :=
  let tots := (monthGroupOf df k).map (·.total_kwh)
  { client_id := k.1
    ext_dev_ref := k.2.1
    year := k.2.2.1
    month := k.2.2.2
    monthly_total_kwh := round6 tots.sum
    monthly_mean_kwh := round6 (meanOf tots)
    monthly_max_kwh := round6 (listMax tots)
    days_with_data := tots.length }

/-- `derive_monthly_from_daily`: group the daily table by
`(client_id, ext_dev_ref, year, month)` (distinct keys, ascending) and
aggregate each group. -/
def derive_monthly_from_daily (df : List DailyRow) : List MonthlyRow :=
  (sortBy monthKeyLE (df.map monthKeyOf).dedup).map (mkMonthly df)

/-- The key a monthly output row carries. -/
def monthKeyOfOut (mr : MonthlyRow) : String × String × Nat × Nat :=
  (mr.client_id, mr.ext_dev_ref, mr.year, mr.month)

/-! ## Claim C5: monthly totals and day counts -/

/-- What C5 asserts of the monthly table: every output row's
`monthly_total_kwh` is the 6-decimal rounding of the sum of `total_kwh`
over exactly the daily rows with its key and `days_with_data` their
count; every key present in the daily table has an output row; and no key
appears twice. -/
def monthlySpec (df : List DailyRow) : Prop :=
  (∀ mr ∈ derive_monthly_from_daily df,
    mr.monthly_total_kwh = round6
      (((df.filter (fun r => decide (monthKeyOf r = monthKeyOfOut mr))).map
        (·.total_kwh)).sum) ∧
    mr.days_with_data =
      (df.filter (fun r => decide (monthKeyOf r = monthKeyOfOut mr))).length) ∧
  (∀ r ∈ df, ∃ mr ∈ derive_monthly_from_daily df,
    monthKeyOfOut mr = monthKeyOf r) ∧
  ((derive_monthly_from_daily df).map monthKeyOfOut).Nodup

/-- C5: for every device (within its client), year and month present in
the daily table, the monthly aggregator emits exactly one row, whose
`monthly_total_kwh` is the sum of `total_kwh` over that group's daily
rows rounded to 6 decimals and whose `days_with_data` is their count. -/
theorem derive_monthly_spec (df : List DailyRow) : monthlySpec df := by
  refine ⟨?_, ?_, ?_⟩
  · intro mr hmr
    obtain ⟨k, hk, hmk⟩ := List.mem_map.mp hmr
    subst hmk
    refine ⟨rfl, ?_⟩
    simp [mkMonthly, monthGroupOf, monthKeyOfOut, List.length_map]
  · intro r hr
    refine ⟨mkMonthly df (monthKeyOf r), List.mem_map_of_mem _ ?_, rfl⟩
    exact (mem_sortBy _ _ _).mpr (List.mem_dedup.mpr (List.mem_map_of_mem _ hr))
  · unfold derive_monthly_from_daily
    rw [List.map_map]
    have hid : (monthKeyOfOut ∘ mkMonthly df) = id := by
      funext k
      rfl
    rw [hid, List.map_id]
    exact ((sortBy_perm _ _).nodup_iff).mpr (List.nodup_dedup _)

/-- A daily row with the given identity and total (other columns at
defaults, irrelevant to the monthly stage). -/
def dRow (c d : String) (ymd : Ymd) (t : ℚ) : DailyRow :=
  { dfltDaily with client_id := c, ext_dev_ref := d, date_local := ymd
                   total_kwh := t }

/-- Witness for C5 on a concrete two-day table. -/
theorem derive_monthly_spec_witness :
    monthlySpec [dRow ("c1") ("d1") ⟨2024, 1, 1⟩ 2, dRow ("c1") ("d1") ⟨2024, 1, 2⟩ 3] :=
  derive_monthly_spec _

end MeterEtl
